import Mathlib

/-!
Verification of the bcoin mempool core (spec sections 3, 4, 6, 7) and of the
browser worker transport (`lib/workers/child-browser.js`).

The mempool implementation itself (`lib/mempool/mempool.js`) is not among the
available sources; only its behavioral test is.  The admission pipeline, coin
view overlay, orphan pool, negative cache and confirmation handler are
therefore modelled from the specification text, and the theorems below are
stated against that model.  The hex transport of `child-browser.js` is
embedded directly from its source.
-/

set_option autoImplicit false

namespace BcoinMempool

/-- Reference to a specific output of a specific transaction (hash + index).
Transaction identity hashes are abstracted as natural numbers. -/
structure Outpoint where
  hash : Nat
  index : Nat
deriving DecidableEq

/-- Modelled from the spec: the transaction shape the mempool core consumes
(`lib/primitives/tx` is absent from the sources).  A transaction is
content-addressed by an identity `hash`, references prior outputs by
`inputs` (outpoints), creates outputs with the listed values, and may declare
a transaction-level `locktime` (0 means none, and height 0 satisfies it).
Script and witness bytes are abstracted away: the external verifier is the
sole authority on script validity and on malleation classification
(spec section 4.4 step 6). -/
structure Tx where
  hash : Nat
  inputs : List Outpoint
  outputs : List Nat
  locktime : Nat
deriving DecidableEq

/-- Modelled from the spec: the observable contract of the external
script/witness verifier (spec sections 2 and 6): pass, fail, or
fail-with-malleation-classification. -/
inductive Verdict where
  | valid
  | invalid
  | invalidMalleated
deriving DecidableEq

/-- Modelled from the spec: the rejection taxonomy of section 7 restricted to
the reasons the admission pipeline of section 4.4 produces. -/
inductive Reason where
  | duplicateHash
  | knownInvalid
  | conflict
  | prematureLocktime
  | insufficientFunds
  | scriptInvalid
deriving DecidableEq

/-- Modelled from the spec: terminal states of the admission state machine
(section 4.4).  A rejection carries its reason tag and the boolean
"is malleated" flag consumed by the caller (section 7). -/
inductive Result where
  | admitted
  | orphaned
  | rejected (reason : Reason) (malleated : Bool)
deriving DecidableEq

/-- Modelled from the spec: the pool state.  `pool` is the list of admitted
transactions in insertion order (the mempool-entry set backing the coin view
overlay), `rejects` the negative cache, `orphans` the orphan pool, `chain`
the confirmed chain's output set (outpoint, value) that coin-view reads fall
through to, and `height` the chain tip height supplied by the chain
authority. -/
structure St where
  pool : List Tx
  rejects : List Nat
  orphans : List Tx
  chain : List (Outpoint × Nat)
  height : Nat
deriving DecidableEq

/-- Whether a terminal result is a rejection. -/
def Result.isRejection : Result → Bool
  | .rejected _ _ => true
  | _ => false

/-- The reason tag carried by a rejection. -/
def Result.reasonTag : Result → Option Reason
  | .rejected r _ => some r
  | _ => none

/-- The is-malleated flag carried by a rejection (a successful or orphaned
outcome carries none). -/
def Result.malleatedFlag : Result → Bool
  | .rejected _ m => m
  | _ => false

/-- Modelled from the spec: the outcome of one `addTX` submission: the updated
pool state, the terminal result for the submitted transaction, and whether the
external verifier was invoked for it (used to state that a negative-cache hit
short-circuits before verification). -/
structure Outcome where
  state : St
  result : Result
  verifierCalled : Bool
deriving DecidableEq

/-- A transaction with the given identity hash is currently admitted. -/
abbrev hasPoolTx (s : St) (h : Nat) : Prop :=
  ∃ t ∈ s.pool, t.hash = h

/-- An outpoint is spent by some transaction of the given pool list. -/
abbrev spentIn (pool : List Tx) (o : Outpoint) : Prop :=
  ∃ t ∈ pool, o ∈ t.inputs

/-- An outpoint is already spent by some pooled transaction (the coin view
records the spender; spec section 3, Coin invariant). -/
abbrev spentByPool (s : St) (o : Outpoint) : Prop :=
  spentIn s.pool o

/-- The submitted transaction double-spends: some input outpoint is already
spent by a pooled transaction (spec section 4.4 step 2). -/
abbrev conflicts (s : St) (tx : Tx) : Prop :=
  ∃ o ∈ tx.inputs, spentByPool s o

/-- An orphan is waiting on (has an input referencing) the transaction with
identity hash `h` (spec section 4.3). -/
abbrev waitsOn (t : Tx) (h : Nat) : Prop :=
  ∃ p ∈ t.inputs, p.hash = h

/-- Query surface `hasReject(hash)`: negative-cache membership
(spec section 6). -/
def hasReject (s : St) (h : Nat) : Bool :=
  decide (h ∈ s.rejects)

/-- Coin view read from the unconfirmed overlay: the output at `o` of a pooled
transaction, when it exists (spec section 4.1). -/
def poolCoin (s : St) (o : Outpoint) : Option Nat :=
  match s.pool.find? (fun t => decide (t.hash = o.hash)) with
  | some t => t.outputs.get? o.index
  | none => none

/-- Coin view fall-through to the confirmed chain's output set
(spec section 4.1). -/
def chainCoin (s : St) (o : Outpoint) : Option Nat :=
  match s.chain.find? (fun p => decide (p.1 = o)) with
  | some p => some p.2
  | none => none

/-- `spendableCoin(outpoint)`: overlay first, then confirmed fall-through
(spec section 4.1). -/
def findCoin (s : St) (o : Outpoint) : Option Nat :=
  match poolCoin s o with
  | some v => some v
  | none => chainCoin s o

/-- Coin resolution (spec section 4.4 step 3): the values of all referenced
coins, or `none` when at least one outpoint is unresolvable. -/
def resolveInputs (s : St) : List Outpoint → Option (List Nat)
  | [] => some []
  | o :: os =>
    match findCoin s o, resolveInputs s os with
    | some v, some vs => some (v :: vs)
    | _, _ => none

/-- Record a hash into the negative cache (spec section 4.2 `reject(hash)`;
called only for non-malleation failures). -/
def cacheReject (s : St) (h : Nat) : St :=
  { s with rejects := h :: s.rejects }

/-- Park a transaction in the orphan pool (spec section 4.3 `park`); a second
orphan with the same identity hash is not double-stored. -/
def park (s : St) (tx : Tx) : St :=
  if ∃ t ∈ s.orphans, t.hash = tx.hash then s
  else { s with orphans := s.orphans ++ [tx] }

/-- Commit step (spec section 4.4 step 7): append the admitted transaction to
the pool, in insertion order; the coin view overlay and the spender records
are derived from the pool list. -/
def commit (s : St) (tx : Tx) : St :=
  { s with pool := s.pool ++ [tx] }

/-- One pass of the admission state machine over a single transaction, without
the orphan-resolution cascade: pre-checks, conflict check, coin resolution,
locktime check, value check, verifier call, commit or park or reject
(spec section 4.4 steps 1-7). -/
def step (V : Tx → Verdict) (s : St) (tx : Tx) : Outcome :=
  if hasPoolTx s tx.hash then
    ⟨s, .rejected .duplicateHash false, false⟩
  else if tx.hash ∈ s.rejects then
    ⟨s, .rejected .knownInvalid false, false⟩
  else if conflicts s tx then
    ⟨cacheReject s tx.hash, .rejected .conflict false, false⟩
  else
    match resolveInputs s tx.inputs with
    | none => ⟨park s tx, .orphaned, false⟩
    | some vals =>
      if s.height < tx.locktime then
        ⟨cacheReject s tx.hash, .rejected .prematureLocktime false, false⟩
      else if vals.sum < tx.outputs.sum then
        ⟨cacheReject s tx.hash, .rejected .insufficientFunds false, false⟩
      else
        match V tx with
        | .valid => ⟨commit s tx, .admitted, true⟩
        | .invalid => ⟨cacheReject s tx.hash, .rejected .scriptInvalid false, true⟩
        | .invalidMalleated => ⟨s, .rejected .scriptInvalid true, true⟩

/-- Orphan-pool resolution (spec section 4.3 `resolve(outpoint)` collected over
all outputs of the newly admitted transaction with hash `h`): the orphans no
longer blocked on `h`, and the state with them removed from every waiting
set. -/
def popReady (s : St) (h : Nat) : List Tx × St :=
  ⟨s.orphans.filter (fun t => decide (waitsOn t h)),
   { s with orphans := s.orphans.filter (fun t => !decide (waitsOn t h)) }⟩

/-- The orphan-resolution cascade (spec section 4.4 step 8): re-submit freed
orphans through the admission state machine; each successful admission frees
further orphans.  Total cascade depth is bounded by explicit fuel, as the spec
demands as a defensive measure. -/
def runQueue (V : Tx → Verdict) : Nat → St → List Tx → St
  | 0, s, _ => s
  | _ + 1, s, [] => s
  | fuel + 1, s, tx :: rest =>
    match (step V s tx).result with
    | .admitted =>
      runQueue V fuel (popReady (step V s tx).state tx.hash).2
        (rest ++ (popReady (step V s tx).state tx.hash).1)
    | _ => runQueue V fuel (step V s tx).state rest

/-- Defensive cascade-depth bound: generous enough that every orphan can be
re-attempted once per admission that frees it. -/
def cascadeFuel (n : Nat) : Nat :=
  (n + 1) * (n + 1)

/-- Modelled from the spec: `addTX`, the admission pipeline entry point
(spec section 4.4).  Runs the state machine on the submitted transaction; on
success, resolves and re-submits freed orphans (step 8).  The reported result
and verifier-use flag are those of the submitted transaction itself. -/
def addTX (V : Tx → Verdict) (s : St) (tx : Tx) : Outcome :=
  if (step V s tx).result = .admitted then
    ⟨runQueue V (cascadeFuel s.orphans.length)
       (popReady (step V s tx).state tx.hash).2
       (popReady (step V s tx).state tx.hash).1,
     (step V s tx).result, (step V s tx).verifierCalled⟩
  else step V s tx

/-- Modelled from the spec: direct entry tracking used by the reference
scenario to seed the funding entry (the test drives it through
`mempool.trackEntry`, which installs an already-built `MempoolEntry` without
re-running admission; spec section 4.4 step 7). -/
def trackEntry (s : St) (tx : Tx) : St :=
  commit s tx

/-- The identity hashes of a block's transactions. -/
def blockHashes (txs : List Tx) : List Nat :=
  txs.map Tx.hash

/-- All outpoints spent by a block's transactions. -/
def blockSpends (txs : List Tx) : List Outpoint :=
  (txs.map Tx.inputs).flatten

/-- The coins a block's transactions create, as confirmed outputs. -/
def confirmedCoins (txs : List Tx) : List (Outpoint × Nat) :=
  (txs.map (fun t =>
    (List.range t.outputs.length).map
      (fun i => (Outpoint.mk t.hash i, t.outputs.getD i 0)))).flatten

/-- Pool entries that survive a block connection: not themselves confirmed,
and not conflicting with a confirmed input. -/
def survivors (s : St) (txs : List Tx) : List Tx :=
  (s.pool.filter (fun t => !decide (t.hash ∈ blockHashes txs))).filter
    (fun t => !decide (∃ o ∈ t.inputs, o ∈ blockSpends txs))

/-- Pool entries evicted as double-spend losers: not confirmed themselves,
but spending an outpoint a confirmed transaction also spends. -/
def losers (s : St) (txs : List Tx) : List Tx :=
  (s.pool.filter (fun t => !decide (t.hash ∈ blockHashes txs))).filter
    (fun t => decide (∃ o ∈ t.inputs, o ∈ blockSpends txs))

/-- The negative cache after a block connection: the entries of confirmed
transactions and of evicted double-spend losers are cleared
(spec section 4.5). -/
def clearedRejects (s : St) (txs : List Tx) : List Nat :=
  s.rejects.filter
    (fun h => !decide (h ∈ blockHashes txs ∨ ∃ t ∈ losers s txs, t.hash = h))

/-- Orphans still parked after a block connection: not confirmed themselves
and not freed by a confirmed parent. -/
def keptOrphans (s : St) (txs : List Tx) : List Tx :=
  (s.orphans.filter (fun t => !decide (t.hash ∈ blockHashes txs))).filter
    (fun t => !decide (∃ p ∈ t.inputs, p.hash ∈ blockHashes txs))

/-- Orphans freed by a block connection (a confirmed parent resolves one of
their missing outpoints); they are replayed through the admission pipeline. -/
def freedOrphans (s : St) (txs : List Tx) : List Tx :=
  (s.orphans.filter (fun t => !decide (t.hash ∈ blockHashes txs))).filter
    (fun t => decide (∃ p ∈ t.inputs, p.hash ∈ blockHashes txs))

/-- The pool state right after a block's removals and before the orphan
replay: confirmed entries and double-spend losers removed, their
negative-cache entries cleared, confirmed outputs adopted into the confirmed
set, tip height advanced. -/
def blockClean (s : St) (height : Nat) (txs : List Tx) : St :=
  ⟨survivors s txs, clearedRejects s txs, keptOrphans s txs,
   s.chain ++ confirmedCoins txs, height⟩

/-- Modelled from the spec: `addBlock`, the confirmation handler
(spec section 4.5).  Removes confirmed transactions from the pool and the
orphan pool, removes double-spend losers (pool entries conflicting with
confirmed inputs), clears the negative-cache entries of confirmed transactions
and of those losers, moves confirmed outputs into the confirmed output set,
adopts the new tip height, and replays the orphans freed by the confirmed
transactions through the admission pipeline. -/
def addBlock (V : Tx → Verdict) (s : St) (height : Nat) (txs : List Tx) : St :=
  runQueue V
    (cascadeFuel (s.orphans.filter (fun t => !decide (t.hash ∈ blockHashes txs))).length)
    (blockClean s height txs) (freedOrphans s txs)

/-- Query surface `getHistory()`: pooled transactions in insertion order
(spec section 6). -/
def getHistory (s : St) : List Tx :=
  s.pool

/-- The still-spendable value contributed by one pooled transaction: the sum
of its output values whose outpoints no other pooled transaction has spent. -/
def txSpendable (pool : List Tx) (t : Tx) : Nat :=
  ((List.range t.outputs.length).map
    (fun i => if spentIn pool ⟨t.hash, i⟩ then 0 else t.outputs.getD i 0)).sum

/-- The sum of the still-spendable output values of a pool list. -/
def poolBalance (pool : List Tx) : Nat :=
  (pool.map (txSpendable pool)).sum

/-- Query surface `getBalance()`: the sum of currently-pooled spendable coin
values (spec sections 3 and 6, Balance view: recomputed from the coin view
and the entry set). -/
def getBalance (s : St) : Nat :=
  poolBalance s.pool

/-- A submission that passes every admission check other than the locktime
gate: fresh identity hash, not negatively cached, no double-spend conflict,
all referenced coins resolve with no value shortfall, and the external
verifier accepts it. -/
def admissibleExceptLocktime (V : Tx → Verdict) (s : St) (tx : Tx) : Prop :=
  ¬ hasPoolTx s tx.hash ∧ tx.hash ∉ s.rejects ∧ ¬ conflicts s tx ∧
  (∃ vals, resolveInputs s tx.inputs = some vals ∧ tx.outputs.sum ≤ vals.sum) ∧
  V tx = .valid

/-- The pool invariant of spec section 3: an outpoint is spendable by at most
one pooled transaction at a time, i.e. no outpoint is spent by two distinct
admitted transactions. -/
def Inv (s : St) : Prop :=
  ∀ t1 ∈ s.pool, ∀ t2 ∈ s.pool, ∀ o ∈ t1.inputs, o ∈ t2.inputs → t1 = t2

/-- The pool states reachable through the pipeline's interface for a fixed
(pure) verifier: the fresh pool, submissions, block connections, chain-tip
height changes, and the direct tracking of fixture entries whose inputs do
not double-spend the pool (the way the reference scenario seeds funding
entries). -/
inductive Reachable (V : Tx → Verdict) : St → Prop where
  | init (chain : List (Outpoint × Nat)) (height : Nat) :
      Reachable V ⟨[], [], [], chain, height⟩
  | submit (s : St) (tx : Tx) : Reachable V s → Reachable V (addTX V s tx).state
  | block (s : St) (height : Nat) (txs : List Tx) :
      Reachable V s → Reachable V (addBlock V s height txs)
  | track (s : St) (tx : Tx) : Reachable V s →
      (∀ o ∈ tx.inputs, ¬ spentByPool s o) → Reachable V (trackEntry s tx)
  | tip (s : St) (height : Nat) : Reachable V s →
      Reachable V { s with height := height }

/-! ### The reference chain-of-spends scenario

The transactions of the behavioral test `should handle incoming orphans and
TXs`, with identity hashes abstracted to small numbers: a tracked funding
entry of 70000, the chain t1 → t2 → t3 → t4 → f1 of spends, and the unsigned
double-spend `fake` of t1's second output.  The verifier accepts everything
except `fake` (whose zeroed signature fails, non-malleated). -/

/-- Funding entry: one 70000 output, seeded through `trackEntry`. -/
def fundTx : Tx := ⟨1, [⟨100, 0⟩], [70000], 0⟩

/-- t1: spends the funding output into 50000 + 10000. -/
def tx1 : Tx := ⟨2, [⟨1, 0⟩], [50000, 10000], 0⟩

/-- t2: spends t1's first output (50000) into 20000 + 20000. -/
def tx2 : Tx := ⟨3, [⟨2, 0⟩], [20000, 20000], 0⟩

/-- t3: spends t1's second output (10000) and t2's first (20000) into
23000. -/
def tx3 : Tx := ⟨4, [⟨2, 1⟩, ⟨3, 0⟩], [23000], 0⟩

/-- t4: spends t2's second output (20000) and t3's output (23000) into
11000 + 11000; submitted before t2 and t3 exist. -/
def tx4 : Tx := ⟨5, [⟨3, 1⟩, ⟨4, 0⟩], [11000, 11000], 0⟩

/-- f1: spends t4's second output (11000) into 9000. -/
def fx1 : Tx := ⟨6, [⟨5, 1⟩], [9000], 0⟩

/-- fake: double-spend of t1's second output with a zeroed signature; the
verifier rejects it as plainly invalid (not malleated). -/
def fakeTx : Tx := ⟨7, [⟨2, 1⟩], [6000], 0⟩

/-- The scenario verifier: rejects `fake` (zeroed signature), accepts the
properly signed transactions. -/
def V0 : Tx → Verdict := fun t => if t.hash = 7 then .invalid else .valid

/-- The freshly opened pool. -/
def s0 : St := ⟨[], [], [], [], 0⟩

/-- After seeding the 70000 funding entry. -/
def sFund : St := trackEntry s0 fundTx

/-- After submitting `fake` (parked: t1 does not exist yet). -/
def sA : St := (addTX V0 sFund fakeTx).state

/-- After submitting t4 (parked: t2 and t3 do not exist yet). -/
def sB : St := (addTX V0 sA tx4).state

/-- After submitting t1 (admitted; the cascade re-attempts `fake`, which is
now resolvable and is rejected by the verifier). -/
def sC : St := (addTX V0 sB tx1).state

/-- After submitting t2 (admitted; the cascade re-attempts t4, which still
misses t3 and is re-parked). -/
def sD : St := (addTX V0 sC tx2).state

/-- After submitting t3 (admitted; the cascade now admits t4). -/
def sE : St := (addTX V0 sD tx3).state

/-- After submitting f1 (admitted). -/
def sF : St := (addTX V0 sE fx1).state

/-! ### Witness fixtures: a one-coin confirmed chain and degenerate
verifiers. -/

/-- A confirmed chain owning a single 70000 coin. -/
def wChain : List (Outpoint × Nat) := [(⟨100, 0⟩, 70000)]

/-- An empty pool over `wChain` at height 0. -/
def wState : St := ⟨[], [], [], wChain, 0⟩

/-- A verifier that classifies every failure as malleated. -/
def VM : Tx → Verdict := fun _ => .invalidMalleated

/-- A verifier that rejects everything, non-malleated. -/
def VI : Tx → Verdict := fun _ => .invalid

/-- A verifier that accepts everything. -/
def VV : Tx → Verdict := fun _ => .valid

end BcoinMempool

namespace ChildBrowser

/-!
Embedding of the hex fallback transport of `lib/workers/child-browser.js`.
Buffers are byte lists; `write` is the `postMessage(data.toString('hex'))`
branch of `Child.prototype.write` (lines 76-84), and `onmessage` is the
string branch of the `onmessage` handler installed by `Child.prototype.init`
(lines 55-67), which runs `Buffer.from(event.data, 'hex')` and asserts
`data.length === event.data.length / 2`.
-/

/-- One hex digit (0 to 15) in Node's lowercase hex alphabet, by character
code: 48 to 57 for the decimal digits, 97 to 102 for a to f. -/
def hexDigitChar (n : Nat) : Char :=
  if n < 10 then Char.ofNat (48 + n) else Char.ofNat (87 + n)

/-- One byte rendered by `toString('hex')`: high nibble then low nibble. -/
def byteToHex (b : Nat) : List Char :=
  [hexDigitChar (b / 16), hexDigitChar (b % 16)]

/-- `data.toString('hex')`: the hexadecimal string of a byte buffer. -/
def bufToHex (bs : List Nat) : String :=
  ⟨(bs.map byteToHex).flatten⟩

/-- The numeric value of one hex character; Node's hex decoder accepts both
cases.  `none` on a non-hex character. -/
def hexVal (c : Char) : Option Nat :=
  if 48 ≤ c.toNat ∧ c.toNat ≤ 57 then some (c.toNat - 48)
  else if 97 ≤ c.toNat ∧ c.toNat ≤ 102 then some (c.toNat - 87)
  else if 65 ≤ c.toNat ∧ c.toNat ≤ 70 then some (c.toNat - 55)
  else none

/-- `Buffer.from(s, 'hex')` combined with the handler's length assertion:
decodes hex-digit pairs; `none` models the assertion
`data.length === event.data.length / 2` firing (odd length, or a non-hex
character making Node truncate the decode). -/
def hexToBytes : List Char → Option (List Nat)
  | [] => some []
  | [_] => none
  | c1 :: c2 :: rest =>
    match hexVal c1, hexVal c2, hexToBytes rest with
    | some hi, some lo, some bs => some ((16 * hi + lo) :: bs)
    | _, _, _ => none

/-- `Child.prototype.write`, hex fallback branch: post the buffer as its hex
string. -/
def write (data : List Nat) : String :=
  bufToHex data

/-- The `onmessage` handler, string branch: decode the hex payload back into
a byte buffer. -/
def onmessage (s : String) : Option (List Nat) :=
  hexToBytes s.data

end ChildBrowser

namespace BcoinMempool

/-! ### Supporting lemmas: branch analysis of the admission state machine,
effect bounds of the cascade, and preservation of the pool invariant. -/

theorem addTX_result_eq (V : Tx → Verdict) (s : St) (tx : Tx) :
    (addTX V s tx).result = (step V s tx).result := by
  unfold addTX; split <;> rfl

theorem addTX_verifier_eq (V : Tx → Verdict) (s : St) (tx : Tx) :
    (addTX V s tx).verifierCalled = (step V s tx).verifierCalled := by
  unfold addTX; split <;> rfl

theorem addTX_eq_step (V : Tx → Verdict) (s : St) (tx : Tx)
    (h : (step V s tx).result ≠ .admitted) : addTX V s tx = step V s tx := by
  unfold addTX
  split
  next hc => exact absurd hc h
  next => rfl

theorem park_rejects (s : St) (tx : Tx) : (park s tx).rejects = s.rejects := by
  unfold park; split <;> rfl

theorem park_pool (s : St) (tx : Tx) : (park s tx).pool = s.pool := by
  unfold park; split <;> rfl

theorem park_mem (s : St) (tx : Tx) : tx.hash ∈ (park s tx).orphans.map Tx.hash := by
  unfold park
  split
  next hex => exact List.mem_map.mpr (by rcases hex with ⟨t, ht, hh⟩; exact ⟨t, ht, hh⟩)
  next => simp

theorem park_orphans_sub (s : St) (tx : Tx) :
    ∀ t ∈ (park s tx).orphans, t ∈ s.orphans ∨ t = tx := by
  unfold park
  split
  next => exact fun t ht => Or.inl ht
  next =>
    intro t ht
    rcases List.mem_append.mp ht with h | h
    · exact Or.inl h
    · simp at h; exact Or.inr h

theorem step_dest (V : Tx → Verdict) (s : St) (tx : Tx) :
    (step V s tx).state = s ∨ (step V s tx).state = cacheReject s tx.hash ∨
    (step V s tx).state = park s tx ∨ (step V s tx).state = commit s tx := by
  unfold step
  repeat' split
  all_goals simp

theorem step_admitted_eq (V : Tx → Verdict) (s : St) (tx : Tx) (st : St) (vc : Bool)
    (h : step V s tx = ⟨st, .admitted, vc⟩) :
    st = commit s tx ∧ ¬ conflicts s tx := by
  unfold step at h
  repeat' split at h
  all_goals simp_all

theorem step_orphaned_eq (V : Tx → Verdict) (s : St) (tx : Tx) (st : St) (vc : Bool)
    (h : step V s tx = ⟨st, .orphaned, vc⟩) : st = park s tx := by
  unfold step at h
  repeat' split at h
  all_goals simp_all

theorem step_rejected_pool (V : Tx → Verdict) (s : St) (tx : Tx) (st : St)
    (r : Reason) (m : Bool) (vc : Bool)
    (h : step V s tx = ⟨st, .rejected r m, vc⟩) :
    st.pool = s.pool ∧ st.orphans = s.orphans := by
  unfold step at h
  repeat' split at h
  all_goals simp_all [cacheReject]
  all_goals obtain ⟨h1, -⟩ := h
  all_goals subst h1
  all_goals simp

theorem step_rejected_fresh (V : Tx → Verdict) (s : St) (tx : Tx) (st : St)
    (r : Reason) (m : Bool) (vc : Bool)
    (h : step V s tx = ⟨st, .rejected r m, vc⟩) (hr : r ≠ .duplicateHash) :
    ¬ hasPoolTx s tx.hash := by
  unfold step at h
  repeat' split at h
  all_goals simp_all

theorem step_malleated_eq (V : Tx → Verdict) (s : St) (tx : Tx) (st : St)
    (r : Reason) (vc : Bool)
    (h : step V s tx = ⟨st, .rejected r true, vc⟩) :
    st = s ∧ tx.hash ∉ s.rejects ∧ V tx = .invalidMalleated := by
  unfold step at h
  repeat' split at h
  all_goals simp_all

theorem step_cached_mem (V : Tx → Verdict) (s : St) (tx : Tx) (st : St)
    (r : Reason) (vc : Bool)
    (h : step V s tx = ⟨st, .rejected r false, vc⟩) (hr : r ≠ .duplicateHash) :
    tx.hash ∈ st.rejects := by
  unfold step at h
  repeat' split at h
  all_goals simp_all [cacheReject]
  all_goals obtain ⟨h1, -⟩ := h
  all_goals subst h1
  all_goals simp

theorem runQueue_no_reject (V : Tx → Verdict) (h : Nat) :
    ∀ fuel (s : St) (q : List Tx), h ∉ s.rejects →
      (∀ t ∈ q, t.hash ≠ h) → (∀ t ∈ s.orphans, t.hash ≠ h) →
      h ∉ (runQueue V fuel s q).rejects := by
  intro fuel
  induction fuel with
  | zero => intro s q h1 _ _; simpa [runQueue] using h1
  | succ n ih =>
    intro s q h1 h2 h3
    cases q with
    | nil => simpa [runQueue] using h1
    | cons tx rest =>
      rcases hst : step V s tx with ⟨st, res, vc⟩
      have hhash : tx.hash ≠ h := h2 tx (List.mem_cons_self tx rest)
      have hd := step_dest V s tx
      rw [hst] at hd
      simp only at hd
      have hrej : h ∉ st.rejects := by
        rcases hd with hd | hd | hd | hd <;> subst hd
        · exact h1
        · intro hmem
          rcases List.mem_cons.mp hmem with he | he
          · exact hhash he.symm
          · exact h1 he
        · rw [park_rejects]; exact h1
        · exact h1
      have horph : ∀ t ∈ st.orphans, t.hash ≠ h := by
        rcases hd with hd | hd | hd | hd <;> subst hd
        · exact h3
        · exact h3
        · intro t ht
          rcases park_orphans_sub s tx t ht with hh | hh
          · exact h3 t hh
          · subst hh; exact hhash
        · exact h3
      simp only [runQueue, hst]
      cases res with
      | admitted =>
        apply ih
        · exact hrej
        · intro t ht
          rcases List.mem_append.mp ht with hh | hh
          · exact h2 t (List.mem_cons_of_mem _ hh)
          · exact horph t (List.mem_filter.mp hh).1
        · intro t ht
          exact horph t (List.mem_filter.mp ht).1
      | orphaned =>
        exact ih st rest hrej (fun t ht => h2 t (List.mem_cons_of_mem _ ht)) horph
      | rejected r m =>
        exact ih st rest hrej (fun t ht => h2 t (List.mem_cons_of_mem _ ht)) horph

theorem inv_of_pool_eq {s t : St} (hp : t.pool = s.pool) (h : Inv s) : Inv t := by
  unfold Inv at *
  rw [hp]
  exact h

theorem commit_inv (s : St) (tx : Tx) (h : Inv s)
    (hg : ∀ o ∈ tx.inputs, ¬ spentByPool s o) : Inv (commit s tx) := by
  unfold Inv commit at *
  intro t1 h1 t2 h2 o ho1 ho2
  simp only [List.mem_append, List.mem_singleton] at h1 h2
  rcases h1 with h1 | h1 <;> rcases h2 with h2 | h2
  · exact h t1 h1 t2 h2 o ho1 ho2
  · subst h2; exact absurd ⟨t1, h1, ho1⟩ (hg o ho2)
  · subst h1; exact absurd ⟨t2, h2, ho2⟩ (hg o ho1)
  · rw [h1, h2]

theorem step_inv (V : Tx → Verdict) (s : St) (tx : Tx) (h : Inv s) :
    Inv (step V s tx).state := by
  rcases hst : step V s tx with ⟨st, res, vc⟩
  show Inv st
  cases res with
  | admitted =>
    obtain ⟨hc, hnc⟩ := step_admitted_eq V s tx st vc hst
    subst hc
    apply commit_inv s tx h
    intro o ho hsp
    exact hnc ⟨o, ho, hsp⟩
  | orphaned =>
    have hp := step_orphaned_eq V s tx st vc hst
    subst hp
    exact inv_of_pool_eq (park_pool s tx) h
  | rejected r m =>
    obtain ⟨hp, -⟩ := step_rejected_pool V s tx st r m vc hst
    exact inv_of_pool_eq hp h

theorem runQueue_inv (V : Tx → Verdict) :
    ∀ fuel (s : St) (q : List Tx), Inv s → Inv (runQueue V fuel s q) := by
  intro fuel
  induction fuel with
  | zero => intro s q h; simpa [runQueue] using h
  | succ n ih =>
    intro s q h
    cases q with
    | nil => simpa [runQueue] using h
    | cons tx rest =>
      rcases hst : step V s tx with ⟨st, res, vc⟩
      have hstInv : Inv st := by
        have hx := step_inv V s tx h
        rw [hst] at hx
        exact hx
      simp only [runQueue, hst]
      cases res with
      | admitted => exact ih _ _ (inv_of_pool_eq rfl hstInv)
      | orphaned => exact ih _ _ hstInv
      | rejected r m => exact ih _ _ hstInv

theorem addTX_inv (V : Tx → Verdict) (s : St) (tx : Tx) (h : Inv s) :
    Inv (addTX V s tx).state := by
  unfold addTX
  split
  next hc =>
    apply runQueue_inv
    exact inv_of_pool_eq rfl (step_inv V s tx h)
  next => exact step_inv V s tx h

theorem addBlock_inv (V : Tx → Verdict) (s : St) (hgt : Nat) (txs : List Tx)
    (h : Inv s) : Inv (addBlock V s hgt txs) := by
  unfold addBlock
  apply runQueue_inv
  intro t1 h1 t2 h2 o ho1 ho2
  exact h t1 (List.mem_of_mem_filter (List.mem_of_mem_filter h1)) t2
    (List.mem_of_mem_filter (List.mem_of_mem_filter h2)) o ho1 ho2

theorem reachable_inv (V : Tx → Verdict) (s : St) (h : Reachable V s) : Inv s := by
  induction h with
  | init c hgt => intro t1 h1 t2 h2 o ho1 ho2; cases h1
  | submit s tx _ ih => exact addTX_inv V s tx ih
  | block s hgt txs _ ih => exact addBlock_inv V s hgt txs ih
  | track s tx _ hg ih => exact commit_inv s tx ih hg
  | tip s hgt _ ih => exact inv_of_pool_eq rfl ih

/-! ### The claims -/


/-- C1: a transaction rejected for a malleation-classified reason (mutated
signature, unnecessary witness, stripped witness — all classified
`InvalidMalleated` by the verifier) fails admission AND leaves no negative
cache entry: the cache is unchanged and `hasReject` is false for its hash
afterward. -/
theorem c1_malleated_not_cached (V : Tx → Verdict) (s : St) (tx : Tx) (r : Reason)
    (h : (addTX V s tx).result = .rejected r true) :
    (addTX V s tx).state.rejects = s.rejects ∧
    hasReject (addTX V s tx).state tx.hash = false := by
  have hs : (step V s tx).result = .rejected r true := by
    rw [← addTX_result_eq]; exact h
  have heq : addTX V s tx = step V s tx := addTX_eq_step V s tx (by rw [hs]; simp)
  rcases hst : step V s tx with ⟨st, res, vc⟩
  rw [hst] at hs
  obtain rfl : res = .rejected r true := hs
  obtain ⟨h1, h2, -⟩ := step_malleated_eq V s tx st r vc hst
  rw [heq, hst]
  subst h1
  refine ⟨rfl, ?_⟩
  simp only [hasReject, decide_eq_false_iff_not]
  exact h2

theorem c1_witness :
    (addTX VM wState ⟨11, [⟨100, 0⟩], [50000], 0⟩).result =
      .rejected .scriptInvalid true ∧
    (addTX VM wState ⟨11, [⟨100, 0⟩], [50000], 0⟩).state.rejects =
      wState.rejects ∧
    hasReject (addTX VM wState ⟨11, [⟨100, 0⟩], [50000], 0⟩).state 11 = false := by
  refine ⟨by decide, ?_⟩
  exact c1_malleated_not_cached VM wState ⟨11, [⟨100, 0⟩], [50000], 0⟩
    .scriptInvalid (by decide)

/-- C2: a transaction rejected for a non-malleation reason (other than being a
duplicate of an already-admitted transaction) is negatively cached:
`hasReject` is true afterward, and resubmitting the identical transaction is
rejected at the pre-check as `KnownInvalid` without invoking the verifier. -/
theorem c2_nonmalleated_cached (V : Tx → Verdict) (s : St) (tx : Tx) (r : Reason)
    (h : (addTX V s tx).result = .rejected r false) (hr : r ≠ .duplicateHash) :
    hasReject (addTX V s tx).state tx.hash = true ∧
    (addTX V ((addTX V s tx).state) tx).result = .rejected .knownInvalid false ∧
    (addTX V ((addTX V s tx).state) tx).verifierCalled = false := by
  have hs : (step V s tx).result = .rejected r false := by
    rw [← addTX_result_eq]; exact h
  have heq : addTX V s tx = step V s tx := addTX_eq_step V s tx (by rw [hs]; simp)
  rcases hst : step V s tx with ⟨st, res, vc⟩
  rw [hst] at hs
  obtain rfl : res = .rejected r false := hs
  have hmem : tx.hash ∈ st.rejects := step_cached_mem V s tx st r vc hst hr
  have hfresh : ¬ hasPoolTx s tx.hash := step_rejected_fresh V s tx st r false vc hst hr
  obtain ⟨hpool, -⟩ := step_rejected_pool V s tx st r false vc hst
  have hfresh2 : ¬ hasPoolTx st tx.hash := by
    intro hx
    rcases hx with ⟨t, ht, hh⟩
    exact hfresh ⟨t, hpool ▸ ht, hh⟩
  have hstep2 : step V st tx = ⟨st, .rejected .knownInvalid false, false⟩ := by
    unfold step
    rw [if_neg hfresh2, if_pos hmem]
  have heq2 : addTX V st tx = step V st tx :=
    addTX_eq_step V st tx (by rw [hstep2]; simp)
  rw [heq, hst]
  refine ⟨?_, ?_, ?_⟩
  · simp only [hasReject, decide_eq_true_eq]
    exact hmem
  · show (addTX V st tx).result = .rejected .knownInvalid false
    rw [heq2, hstep2]
  · show (addTX V st tx).verifierCalled = false
    rw [heq2, hstep2]

theorem c2_witness :
    (addTX VI wState ⟨12, [⟨100, 0⟩], [50000], 0⟩).result =
      .rejected .scriptInvalid false ∧
    hasReject (addTX VI wState ⟨12, [⟨100, 0⟩], [50000], 0⟩).state 12 = true ∧
    (addTX VI ((addTX VI wState ⟨12, [⟨100, 0⟩], [50000], 0⟩).state)
        ⟨12, [⟨100, 0⟩], [50000], 0⟩).result = .rejected .knownInvalid false ∧
    (addTX VI ((addTX VI wState ⟨12, [⟨100, 0⟩], [50000], 0⟩).state)
        ⟨12, [⟨100, 0⟩], [50000], 0⟩).verifierCalled = false := by
  refine ⟨by decide, ?_⟩
  have h := c2_nonmalleated_cached VI wState ⟨12, [⟨100, 0⟩], [50000], 0⟩
    .scriptInvalid (by decide) (by decide)
  exact ⟨h.1, h.2.1, h.2.2⟩

/-- C3: connecting a block clears the negative-cache entry of every hash the
block confirms: for any transaction of the block (hence for any valid variant
sharing its identity hash), `hasReject` is false after block processing. -/
theorem c3_block_clears_reject (V : Tx → Verdict) (s : St) (hgt : Nat)
    (txs : List Tx) (h : Nat) (hmem : h ∈ blockHashes txs) :
    hasReject (addBlock V s hgt txs) h = false := by
  simp only [hasReject, decide_eq_false_iff_not]
  unfold addBlock
  apply runQueue_no_reject
  · intro hc
    have hx := (List.mem_filter.mp hc).2
    simp only [Bool.not_eq_eq_eq_not, Bool.not_true, decide_eq_false_iff_not] at hx
    exact hx (Or.inl hmem)
  · intro t ht
    have hx := (List.mem_filter.mp (List.mem_filter.mp ht).1).2
    simp only [Bool.not_eq_eq_eq_not, Bool.not_true, decide_eq_false_iff_not] at hx
    intro he
    exact hx (he ▸ hmem)
  · intro t ht
    have hx := (List.mem_filter.mp (List.mem_filter.mp ht).1).2
    simp only [Bool.not_eq_eq_eq_not, Bool.not_true, decide_eq_false_iff_not] at hx
    intro he
    exact hx (he ▸ hmem)

theorem c3_witness :
    hasReject (addBlock VV (cacheReject wState 13) 1 [⟨13, [⟨100, 0⟩], [50000], 0⟩]) 13 = false := by
  exact c3_block_clears_reject VV (cacheReject wState 13) 1
    [⟨13, [⟨100, 0⟩], [50000], 0⟩] 13 (by decide)

/-- C4: the reference chain-of-spends scenario.  After seeding the 70000
funding entry and submitting fake, t4, t1, t2, t3, f1 in the test's order,
`getBalance()` (by definition the sum of currently-pooled spendable coin
values) reports exactly 70000 → 70000 → 60000 → 50000 → 22000 → 20000 at the
checkpoints of the reference scenario. -/
theorem c4_balance_sequence :
    getBalance sFund = 70000 ∧ getBalance sB = 70000 ∧ getBalance sC = 60000 ∧
    getBalance sD = 50000 ∧ getBalance sE = 22000 ∧ getBalance sF = 20000 := by
  decide

/-- C5: a submission whose referenced parent outputs are unresolvable is
parked in the orphan pool: it is not rejected, the negative cache is
untouched, and its hash is among the parked orphans; in the reference
scenario both `fake` and t4 are parked this way, and t4 (submitted before t2
and t3) is admitted automatically once t3's admission frees it. -/
theorem c5_orphan_parked_then_admitted (V : Tx → Verdict) (s : St) (tx : Tx)
    (h : (addTX V s tx).result = .orphaned) :
    ((addTX V s tx).state.rejects = s.rejects ∧
      tx.hash ∈ (addTX V s tx).state.orphans.map Tx.hash) ∧
    (addTX V0 sA tx4).result = .orphaned ∧
    tx4.hash ∉ sB.pool.map Tx.hash ∧
    tx4.hash ∈ sE.pool.map Tx.hash := by
  have hs : (step V s tx).result = .orphaned := by
    rw [← addTX_result_eq]; exact h
  have heq : addTX V s tx = step V s tx := addTX_eq_step V s tx (by rw [hs]; simp)
  rcases hst : step V s tx with ⟨st, res, vc⟩
  rw [hst] at hs
  obtain rfl : res = .orphaned := hs
  have hp := step_orphaned_eq V s tx st vc hst
  subst hp
  rw [heq, hst]
  exact ⟨⟨park_rejects s tx, park_mem s tx⟩, by decide, by decide, by decide⟩

theorem c5_witness :
    (addTX V0 sFund fakeTx).result = .orphaned ∧
    (addTX V0 sFund fakeTx).state.rejects = sFund.rejects ∧
    fakeTx.hash ∈ (addTX V0 sFund fakeTx).state.orphans.map Tx.hash := by
  refine ⟨by decide, ?_⟩
  have h := c5_orphan_parked_then_admitted V0 sFund fakeTx (by decide)
  exact h.1

/-- C6: the locktime gate.  For a transaction that passes every other
admission check, submission at a chain tip height strictly below its declared
locktime is rejected with `PrematureLocktime`, and the identical transaction
is admitted once the height reaches the locktime. -/
theorem c6_locktime_gate (V : Tx → Verdict) (s : St) (tx : Tx)
    (hadm : admissibleExceptLocktime V s tx) :
    (s.height < tx.locktime →
      (addTX V s tx).result = .rejected .prematureLocktime false) ∧
    (tx.locktime ≤ s.height → (addTX V s tx).result = .admitted) := by
  obtain ⟨h1, h2, h3, ⟨vals, hv, hval⟩, hV⟩ := hadm
  constructor
  · intro hlt
    have hs : step V s tx =
        ⟨cacheReject s tx.hash, .rejected .prematureLocktime false, false⟩ := by
      simp only [step, hv, if_neg h1, if_neg h2, if_neg h3, if_pos hlt]
    rw [addTX_eq_step V s tx (by rw [hs]; simp), hs]
  · intro hge
    have hnl : ¬ s.height < tx.locktime := not_lt.mpr hge
    have hnf : ¬ vals.sum < tx.outputs.sum := not_lt.mpr hval
    have hs : step V s tx = ⟨commit s tx, .admitted, true⟩ := by
      simp only [step, hv, hV, if_neg h1, if_neg h2, if_neg h3, if_neg hnl,
        if_neg hnf]
    rw [addTX_result_eq, hs]

theorem c6_witness :
    ((199 < 200 →
      (addTX VV { wState with height := 199 } ⟨14, [⟨100, 0⟩], [50000], 200⟩).result =
        .rejected .prematureLocktime false) ∧
     (200 ≤ 199 →
      (addTX VV { wState with height := 199 } ⟨14, [⟨100, 0⟩], [50000], 200⟩).result =
        .admitted)) ∧
    ((200 < 200 →
      (addTX VV { wState with height := 200 } ⟨14, [⟨100, 0⟩], [50000], 200⟩).result =
        .rejected .prematureLocktime false) ∧
     (200 ≤ 200 →
      (addTX VV { wState with height := 200 } ⟨14, [⟨100, 0⟩], [50000], 200⟩).result =
        .admitted)) := by
  constructor
  · exact c6_locktime_gate VV { wState with height := 199 }
      ⟨14, [⟨100, 0⟩], [50000], 200⟩
      ⟨by decide, by decide, by decide, ⟨[70000], by decide, by decide⟩, by decide⟩
  · exact c6_locktime_gate VV { wState with height := 200 }
      ⟨14, [⟨100, 0⟩], [50000], 200⟩
      ⟨by decide, by decide, by decide, ⟨[70000], by decide, by decide⟩, by decide⟩

/-- C7: in every reachable pool state, an outpoint is spent by at most one
pooled transaction (no two distinct admitted transactions share an input
outpoint), and a fresh submission that double-spends a pooled outpoint — no
replacement policy exists in this pipeline — is rejected with `Conflict`. -/
theorem c7_no_double_spend (V : Tx → Verdict) (s : St) (tx : Tx)
    (h : Reachable V s) :
    Inv s ∧
    (conflicts s tx → ¬ hasPoolTx s tx.hash → tx.hash ∉ s.rejects →
      (addTX V s tx).result = .rejected .conflict false) := by
  refine ⟨reachable_inv V s h, ?_⟩
  intro hc h1 h2
  have hs : step V s tx = ⟨cacheReject s tx.hash, .rejected .conflict false, false⟩ := by
    simp only [step, if_neg h1, if_neg h2, if_pos hc]
  rw [addTX_eq_step V s tx (by rw [hs]; simp), hs]

theorem c7_witness :
    Inv (addTX VV wState ⟨15, [⟨100, 0⟩], [50000, 10000], 0⟩).state ∧
    (conflicts (addTX VV wState ⟨15, [⟨100, 0⟩], [50000, 10000], 0⟩).state
        ⟨16, [⟨100, 0⟩], [40000], 0⟩ →
      ¬ hasPoolTx (addTX VV wState ⟨15, [⟨100, 0⟩], [50000, 10000], 0⟩).state 16 →
      16 ∉ (addTX VV wState ⟨15, [⟨100, 0⟩], [50000, 10000], 0⟩).state.rejects →
      (addTX VV ((addTX VV wState ⟨15, [⟨100, 0⟩], [50000, 10000], 0⟩).state)
          ⟨16, [⟨100, 0⟩], [40000], 0⟩).result = .rejected .conflict false) := by
  exact c7_no_double_spend VV
    (addTX VV wState ⟨15, [⟨100, 0⟩], [50000, 10000], 0⟩).state
    ⟨16, [⟨100, 0⟩], [40000], 0⟩
    (Reachable.submit wState ⟨15, [⟨100, 0⟩], [50000, 10000], 0⟩
      (Reachable.init wChain 0))

/-- C8: the admission pipeline's expected outcomes never escape as
exceptions: `addTX` is a total function whose result is admitted, orphaned, or
a rejection carrying a reason tag and a readable is-malleated flag, and that
flag is true only when the external verifier classified the failure as
malleated. -/
theorem c8_results_not_exceptions (V : Tx → Verdict) (s : St) (tx : Tx) :
    ((addTX V s tx).result = .admitted ∨ (addTX V s tx).result = .orphaned ∨
      ((addTX V s tx).result.isRejection = true ∧
        ((addTX V s tx).result.reasonTag).isSome = true)) ∧
    ((addTX V s tx).result.malleatedFlag = true → V tx = .invalidMalleated) := by
  have hres := addTX_result_eq V s tx
  rcases hst : step V s tx with ⟨st, res, vc⟩
  rw [hst] at hres
  rw [hres]
  cases res with
  | admitted => exact ⟨Or.inl rfl, by intro hx; cases hx⟩
  | orphaned => exact ⟨Or.inr (Or.inl rfl), by intro hx; cases hx⟩
  | rejected r m =>
    refine ⟨Or.inr (Or.inr ⟨rfl, rfl⟩), ?_⟩
    intro hm
    have hmt : m = true := hm
    subst hmt
    exact (step_malleated_eq V s tx st r vc hst).2.2

theorem c8_witness :
    ((addTX V0 sFund fakeTx).result = .admitted ∨
      (addTX V0 sFund fakeTx).result = .orphaned ∨
      ((addTX V0 sFund fakeTx).result.isRejection = true ∧
        ((addTX V0 sFund fakeTx).result.reasonTag).isSome = true)) ∧
    ((addTX V0 sFund fakeTx).result.malleatedFlag = true →
      V0 fakeTx = .invalidMalleated) := by
  exact c8_results_not_exceptions V0 sFund fakeTx

/-- C9: rejected transactions never contribute to the pool's query surface:
a rejection (other than the duplicate pre-check, which concerns an already
admitted transaction) leaves `getHistory` and `getBalance` unchanged and the
rejected hash absent from the history; in the reference scenario the rejected
`fake` never appears in the final history. -/
theorem c9_rejected_not_counted (V : Tx → Verdict) (s : St) (tx : Tx)
    (r : Reason) (m : Bool)
    (h : (addTX V s tx).result = .rejected r m) (hr : r ≠ .duplicateHash) :
    getHistory (addTX V s tx).state = getHistory s ∧
    getBalance (addTX V s tx).state = getBalance s ∧
    tx.hash ∉ (getHistory (addTX V s tx).state).map Tx.hash ∧
    fakeTx.hash ∉ (getHistory sF).map Tx.hash := by
  have hs : (step V s tx).result = .rejected r m := by
    rw [← addTX_result_eq]; exact h
  have heq : addTX V s tx = step V s tx := addTX_eq_step V s tx (by rw [hs]; simp)
  rcases hst : step V s tx with ⟨st, res, vc⟩
  rw [hst] at hs
  obtain rfl : res = .rejected r m := hs
  obtain ⟨hpool, -⟩ := step_rejected_pool V s tx st r m vc hst
  have hfresh : ¬ hasPoolTx s tx.hash := step_rejected_fresh V s tx st r m vc hst hr
  rw [heq, hst]
  refine ⟨?_, ?_, ?_, by decide⟩
  · show getHistory st = getHistory s
    simp only [getHistory]
    exact hpool
  · show getBalance st = getBalance s
    simp only [getBalance]
    rw [hpool]
  · show tx.hash ∉ (getHistory st).map Tx.hash
    simp only [getHistory]
    rw [hpool]
    intro hx
    rcases List.mem_map.mp hx with ⟨t, ht, hh⟩
    exact hfresh ⟨t, ht, hh⟩

theorem c9_witness :
    (addTX VI wState ⟨17, [⟨100, 0⟩], [50000], 0⟩).result =
      .rejected .scriptInvalid false ∧
    getHistory (addTX VI wState ⟨17, [⟨100, 0⟩], [50000], 0⟩).state =
      getHistory wState ∧
    getBalance (addTX VI wState ⟨17, [⟨100, 0⟩], [50000], 0⟩).state =
      getBalance wState ∧
    (17 : Nat) ∉ (getHistory (addTX VI wState ⟨17, [⟨100, 0⟩], [50000], 0⟩).state).map
      Tx.hash ∧
    fakeTx.hash ∉ (getHistory sF).map Tx.hash := by
  refine ⟨by decide, ?_⟩
  have h := c9_rejected_not_counted VI wState ⟨17, [⟨100, 0⟩], [50000], 0⟩
    .scriptInvalid false (by decide) (by decide)
  exact ⟨h.1, h.2.1, h.2.2.1, h.2.2.2⟩

end BcoinMempool

namespace ChildBrowser


theorem hexVal_hexDigitChar : ∀ n, n < 16 → hexVal (hexDigitChar n) = some n := by
  decide

theorem hexToBytes_cons (b : Nat) (hb : b < 256) (cs : List Char) :
    hexToBytes (hexDigitChar (b / 16) :: hexDigitChar (b % 16) :: cs) =
      (hexToBytes cs).map (fun bs => b :: bs) := by
  have h1 : b / 16 < 16 := by omega
  have h2 : b % 16 < 16 := Nat.mod_lt _ (by norm_num)
  simp only [hexToBytes, hexVal_hexDigitChar _ h1, hexVal_hexDigitChar _ h2]
  cases hcs : hexToBytes cs with
  | none => rfl
  | some bs => simp [Nat.div_add_mod]

theorem bufToHex_length (bs : List Nat) :
    (bufToHex bs).length = 2 * bs.length := by
  induction bs with
  | nil => rfl
  | cons b rest ih =>
    show (byteToHex b ++ (rest.map byteToHex).flatten).length = 2 * (rest.length + 1)
    rw [List.length_append]
    have hx : ((rest.map byteToHex).flatten).length = 2 * rest.length := ih
    rw [hx]
    show 2 + 2 * rest.length = 2 * (rest.length + 1)
    omega

theorem hexToBytes_flatten : ∀ bs : List Nat, (∀ b ∈ bs, b < 256) →
    hexToBytes ((bs.map byteToHex).flatten) = some bs := by
  intro bs
  induction bs with
  | nil => intro _; rfl
  | cons b rest ih =>
    intro hb
    show hexToBytes (hexDigitChar (b / 16) :: hexDigitChar (b % 16) ::
      (rest.map byteToHex).flatten) = some (b :: rest)
    rw [hexToBytes_cons b (hb b (List.mem_cons_self b rest))]
    rw [ih (fun x hx => hb x (List.mem_cons_of_mem b hx))]
    rfl

theorem hexToBytes_length : ∀ (cs : List Char) (ds : List Nat),
    hexToBytes cs = some ds → 2 * ds.length = cs.length := by
  intro cs
  induction cs using hexToBytes.induct with
  | case1 =>
    intro ds h
    obtain rfl : ds = [] := by simpa [hexToBytes] using h.symm
    rfl
  | case2 c =>
    intro ds h
    simp [hexToBytes] at h
  | case3 c1 c2 rest hi lo bs hrest hc2 hc1 ih =>
    intro ds h
    simp only [hexToBytes, hc1, hc2, hrest] at h
    obtain rfl : ds = (16 * hi + lo) :: bs := by
      cases h
      rfl
    have hlen := ih bs hrest
    simp only [List.length_cons]
    omega
  | case4 c1 c2 rest hfail ih =>
    intro ds h
    simp only [hexToBytes] at h
    rcases h1 : hexVal c1 with _ | hi
    · cases h
    rcases h2 : hexVal c2 with _ | lo
    · cases h
    rcases h3 : hexToBytes rest with _ | bs
    · cases h
    exact (hfail hi lo bs h1 h2 h3).elim

/-- C10: the browser worker transport preserves byte payloads in its hex
fallback mode: `write` posts a buffer as its hex string of exactly twice the
byte length, the handler's decode of that string returns the original buffer
(round-trip identity), and any successfully decoded message has exactly
`s.length / 2` bytes, as the handler's assertion demands. -/
theorem c10_hex_roundtrip (bs : List Nat) (s : String) (ds : List Nat)
    (hb : ∀ b ∈ bs, b < 256) (hd : onmessage s = some ds) :
    onmessage (write bs) = some bs ∧
    (write bs).length = 2 * bs.length ∧
    ds.length = s.length / 2 := by
  refine ⟨hexToBytes_flatten bs hb, bufToHex_length bs, ?_⟩
  have hlen := hexToBytes_length s.data ds hd
  have hsl : s.length = s.data.length := rfl
  omega

theorem c10_witness :
    onmessage (write [0, 171, 255]) = some [0, 171, 255] ∧
    (write [0, 171, 255]).length = 2 * [0, 171, 255].length ∧
    [0, 171, 255].length = (write [0, 171, 255]).length / 2 :=
  c10_hex_roundtrip [0, 171, 255] (write [0, 171, 255]) [0, 171, 255]
    (by decide) (by decide)

end ChildBrowser
